import Mathlib

/-!
Verification of the llm-datagen execution core against its specification.

The definitions below are shallow embeddings of the Python sources under
src/llm_datagen (impl/channel/threading_channel.py, impl/bus/stream_bridge.py,
impl/bus/bus.py, impl/storage/jsonl_storage.py, impl/node.py, impl/pipeline.py,
core/hooks.py).  Stateful code is embedded as explicit state passing; the
concurrent environment seen by the tail-follow loop is embedded as a trace of
observations, one per interaction with the shared storage/channel pair.
-/

namespace LlmDatagen

/- ====================================================================
   Channel: impl/channel/threading_channel.py (ThreadingChannel)
   ==================================================================== -/

/-- State of a ThreadingChannel: the sticky EOF flag and the monotone
version counter (threading_channel.py lines 8-12). -/
structure ChannelState where
  eof : Bool
  version : Nat
deriving DecidableEq, Repr

/-- ThreadingChannel.notify: increments the version counter and wakes all
waiters (threading_channel.py lines 14-17). -/
def ChannelState.notify (s : ChannelState) : ChannelState :=
  { s with version := s.version + 1 }

/-- ThreadingChannel.set_eof: sets the sticky EOF flag and wakes all waiters
(threading_channel.py lines 29-32). -/
def ChannelState.set_eof (s : ChannelState) : ChannelState :=
  { s with eof := true }

/-- ThreadingChannel.is_eof (threading_channel.py lines 34-36). -/
def ChannelState.is_eof (s : ChannelState) : Bool := s.eof

/-- ThreadingChannel.reset: clears EOF and advances the version
(threading_channel.py lines 38-41). -/
def ChannelState.reset (s : ChannelState) : ChannelState :=
  { eof := false, version := s.version + 1 }

/-- Return value of ThreadingChannel.wait (threading_channel.py lines 19-27).
startVersion is the version read on entry, s is the channel state once the
lock is held, and condWaitOutcome is what threading.Condition.wait would
return (true when notified before the timeout).  The code checks EOF first
and returns False in that case; only then does it compare versions. -/
def ChannelState.waitResult (startVersion : Nat) (s : ChannelState)
    (condWaitOutcome : Bool) : Bool :=
  if s.eof then false
  else if startVersion < s.version then true
  else condWaitOutcome

/- ====================================================================
   Node status and BaseNode.open: impl/node.py
   ==================================================================== -/

/-- Modelled from the spec: the file llm_datagen/core/node.py that declares
the NodeStatus enum is not under src/.  Spec section 3 lists
status in (pending, running, completed, failed, canceled, resuming); the
implementation in impl/node.py additionally references NodeStatus.CANCELING. -/
inductive NodeStatus where
  | pending
  | running
  | completed
  | failed
  | canceled
  | resuming
  | canceling
deriving DecidableEq, Repr

/-- Status transition performed by BaseNode.open (impl/node.py lines 141-143):
the status is overwritten with RUNNING unless it is COMPLETED.  No other
status, canceled included, is spared. -/
def openStatus (s : NodeStatus) : NodeStatus :=
  if s ≠ NodeStatus.completed then NodeStatus.running else s

/- ====================================================================
   Pipeline final status: impl/pipeline.py
   ==================================================================== -/

/-- Pipeline status enum (core/pipeline.py lines 5-13). -/
inductive PipelineStatus where
  | pending
  | resuming
  | running
  | canceling
  | canceled
  | completed
  | failed
deriving DecidableEq, Repr

/-- NodePipeline.close (impl/pipeline.py lines 244-246): the pipeline status
is unconditionally overwritten with COMPLETED when success is true and
FAILED otherwise; the status held before the call is ignored. -/
def nodePipelineClose (statusBefore : PipelineStatus) (success : Bool) :
    PipelineStatus :=
  let _ := statusBefore
  if success then PipelineStatus.completed else PipelineStatus.failed

/-- The finally block of StreamingPipeline.run (impl/pipeline.py lines
434-437): first the CANCELING to CANCELED promotion, then close, which
overwrites the status. -/
def streamingRunFinalStatus (statusAtFinally : PipelineStatus)
    (success : Bool) : PipelineStatus :=
  let promoted :=
    if statusAtFinally = PipelineStatus.canceling then PipelineStatus.canceled
    else statusAtFinally
  nodePipelineClose promoted success

/-- The finally block of SequentialPipeline.run (impl/pipeline.py line 371):
it only calls close. -/
def sequentialRunFinalStatus (statusAtFinally : PipelineStatus)
    (success : Bool) : PipelineStatus :=
  nodePipelineClose statusAtFinally success

/- ====================================================================
   Stream clearing on fresh create: impl/pipeline.py
   (UnifiedOperatorPipeline._clear_streams_if_needed, lines 697-706)
   ==================================================================== -/

/-- A node as seen by _clear_streams_if_needed: just its two bound stream
objects.  Streams are identified by the identity of the Python object
(streams are created by separate factory calls, so two streams are equal
exactly when they are the same object); we embed object identity as a Nat
id.  output is an Option because the code guards on n.output_stream being
truthy. -/
structure NodeStreams where
  inputStream : Nat
  outputStream : Option Nat
deriving DecidableEq, Repr

/-- The set of stream ids whose clear_data() is invoked by
_clear_streams_if_needed (impl/pipeline.py lines 697-700): every node output
stream that is bound and differs from the first node input stream. -/
def clearedStreams (nodes : List NodeStreams) : List Nat :=
  match nodes with
  | [] => []
  | n0 :: _ =>
      nodes.filterMap (fun n =>
        match n.outputStream with
        | none => none
        | some s => if s ≠ n0.inputStream then some s else none)

/- ====================================================================
   Writer: impl/bus/bus.py (GenericWriter) and
   impl/storage/jsonl_storage.py (JsonlStorage.append)
   ==================================================================== -/

/-- A stored record as produced by GenericWriter (bus.py lines 384-388):
either the item is a dict and the _i key is set in place, or it is wrapped
as a dict with keys _i and data.  Either way the record carries the _i
value (field anchor) next to the item payload.  Supplied anchors are
arbitrary Python values (type ι); an auto anchor is the string
auto_offset. -/
structure Envelope (ι : Type) (α : Type) where
  anchor : ι ⊕ String
  payload : α
deriving DecidableEq, Repr

/-- The anchor selection of _perform_batch_write (bus.py line 382):
anchors enumerated at the item index i are used when the anchors argument
is a truthy (non-None, non-empty) list and i is within it; otherwise
auto underscore startIdx plus i. -/
def anchorRule (anchors : Option (List ι)) (startIdx i : Nat) : ι ⊕ String :=
  match anchors with
  | some l =>
      if h : ¬ l.isEmpty ∧ i < l.length then Sum.inl (l.get ⟨i, h.2⟩)
      else Sum.inr ("auto_" ++ toString (startIdx + i))
  | none => Sum.inr ("auto_" ++ toString (startIdx + i))

/-- Inner loop of _perform_batch_write over one (items, anchors) group
(bus.py lines 378-388): i enumerates the items list, None items are
skipped but still advance i, every other item becomes one envelope. -/
def groupEnvelopes (anchors : Option (List ι)) (startIdx : Nat) :
    Nat → List (Option α) → List (Envelope ι α)
  | _, [] => []
  | i, none :: rest => groupEnvelopes anchors startIdx (i + 1) rest
  | i, some it :: rest =>
      ⟨anchorRule anchors startIdx i, it⟩ ::
        groupEnvelopes anchors startIdx (i + 1) rest

/-- State of a GenericWriter together with its destination storage.
written_count is initialised to storage.size() on construction
(bus.py line 311). -/
structure WriterState (ι : Type) (α : Type) where
  storage : List (Envelope ι α)
  writtenCount : Nat
  channel : ChannelState
deriving Repr

/-- JsonlStorage.append (jsonl_storage.py lines 19-28) restricted to the
records the writer hands it: every envelope carries the _i key, so none is
None or an empty dict and each one appends exactly one line. -/
def jsonlAppendEnvelopes (storage newRecords : List (Envelope ι α)) :
    List (Envelope ι α) :=
  storage ++ newRecords

/-- GenericWriter._perform_batch_write (bus.py lines 375-395): build all
envelopes of the batch group list (start_idx for each group is
written_count plus envelopes built so far), then, when any envelope was
built, append them to storage, advance written_count and notify the
channel. -/
def performBatchWrite (st : WriterState ι α)
    (batchData : List (List (Option α) × Option (List ι))) : WriterState ι α :=
  let allEnvelopes := batchData.foldl
    (fun acc g => acc ++ groupEnvelopes g.2 (st.writtenCount + acc.length) 0 g.1)
    []
  if allEnvelopes.isEmpty then st
  else
    { storage := jsonlAppendEnvelopes st.storage allEnvelopes
      writtenCount := st.writtenCount + allEnvelopes.length
      channel := st.channel.notify }

/-- GenericWriter.write in sync mode (bus.py lines 397-404): one group. -/
def writerWrite (st : WriterState ι α) (items : List (Option α))
    (anchors : Option (List ι)) : WriterState ι α :=
  performBatchWrite st [(items, anchors)]

/- ====================================================================
   Topology welding: impl/pipeline.py
   (UnifiedOperatorPipeline._weld_topology, lines 650-664)
   ==================================================================== -/

/-- The per-plan config as read by _weld_topology: node_id plus the two
endpoint URIs, none standing for a missing or blank (falsy) entry. -/
structure PlanConf where
  nodeId : String
  inputUri : Option String
  outputUri : Option String
deriving DecidableEq, Repr

/-- Python str.replace of the three-character protocol separator by the
empty string: scan left to right removing non-overlapping occurrences. -/
def removeProtoSep : List Char → List Char
  | [] => []
  | ':' :: '/' :: '/' :: rest => removeProtoSep rest
  | ch :: rest => ch :: removeProtoSep rest

/-- get_protocol_extension (bus.py lines 440-444): empty protocol defaults
to .jsonl; otherwise the separator is removed and the name lower-cased,
then looked up in the extension mapping with .jsonl as the default. -/
def getProtocolExtension (protocol : String) : String :=
  if protocol = "" then ".jsonl"
  else
    let clean := String.mk ((removeProtoSep protocol.toList).map Char.toLower)
    if clean = "jsonl" then ".jsonl"
    else if clean = "csv" then ".csv"
    else if clean = "file" then ".jsonl"
    else if clean = "memory" then ""
    else ".jsonl"

/-- Python str.strip with the slash character: drop leading and trailing
slash characters. -/
def stripSlashes (s : String) : String :=
  String.mk (((s.toList.dropWhile (fun ch => ch = '/')).reverse.dropWhile
    (fun ch => ch = '/')).reverse)

/-- The URI synthesized for a blank internal edge (pipeline.py lines
662-663): default_protocol (which carries its own separator, for example
jsonl with the separator) ++ pipeline_id stripped of slashes ++ slash ++
node_id ++ protocol extension. -/
def synthUri (defaultProto pipelineId nodeId : String) : String :=
  defaultProto ++ stripSlashes pipelineId ++ "/" ++ nodeId ++
    getProtocolExtension defaultProto

/-- First loop of _weld_topology (pipeline.py lines 651-658), edge by edge:
prev is the already-processed left neighbour, whose output_uri the current
edge may still fill in.  Branch order follows the Python elif chain. -/
def weldEdges : PlanConf → List PlanConf → Except String (List PlanConf)
  | prev, [] => Except.ok [prev]
  | prev, c :: rest =>
      match c.inputUri, prev.outputUri with
      | some iu, none =>
          (weldEdges c rest).map (fun r => { prev with outputUri := some iu } :: r)
      | none, some ou =>
          (weldEdges { c with inputUri := some ou } rest).map (fun r => prev :: r)
      | some iu, some ou =>
          if iu ≠ ou then
            Except.error ("Topology Error: URI mismatch between " ++
              prev.nodeId ++ " and " ++ c.nodeId)
          else (weldEdges c rest).map (fun r => prev :: r)
      | none, none => (weldEdges c rest).map (fun r => prev :: r)

/-- First loop of _weld_topology over the whole plan list. -/
def weldPass1 : List PlanConf → Except String (List PlanConf)
  | [] => Except.ok []
  | p :: rest => weldEdges p rest

/-- Second loop of _weld_topology (pipeline.py lines 659-664) from the
current plan p onward, rest being the plans after p: every plan except the
last with a blank output_uri gets the synthesized URI, which is also copied
into the next plan input_uri. -/
def weldSynthAux (defaultProto pipelineId : String) :
    PlanConf → List PlanConf → List PlanConf
  | p, [] => [p]
  | p, q :: rest =>
      match p.outputUri with
      | some _ => p :: weldSynthAux defaultProto pipelineId q rest
      | none =>
          let u := synthUri defaultProto pipelineId p.nodeId
          { p with outputUri := some u } ::
            weldSynthAux defaultProto pipelineId { q with inputUri := some u } rest

/-- Second loop of _weld_topology over the whole plan list. -/
def weldSynth (defaultProto pipelineId : String) : List PlanConf → List PlanConf
  | [] => []
  | p :: rest => weldSynthAux defaultProto pipelineId p rest

/-- _weld_topology: both loops in order.  The Python function mutates the
plan dicts in place; the embedding returns the updated list, or the raised
ValueError message. -/
def weldTopology (defaultProto pipelineId : String) (plans : List PlanConf) :
    Except String (List PlanConf) :=
  (weldPass1 plans).map (weldSynth defaultProto pipelineId)

/-- The mismatch condition of the raise in _weld_topology, read off the
original plan list: some adjacent pair declares both sides of its shared
edge with different URIs.  (The in-place updates of the first loop never
touch a URI that a later mismatch test reads: the test at edge k reads
plans k output_uri, which only the test at edge k itself can update, and
plans k+1 input_uri, which only edge k can update.) -/
def hasEdgeMismatch : List PlanConf → Bool
  | p :: q :: rest =>
      (match q.inputUri, p.outputUri with
       | some iu, some ou => iu ≠ ou
       | _, _ => false) || hasEdgeMismatch (q :: rest)
  | _ => false

/-- The spec-side weld rule (spec section 4.8, weld rule 2), written from
the spec words for comparison with weldTopology: on every internal edge,
if the left side declares a URI use it, else if the right side declares
one use it, else synthesize; the chosen URI is written to both sides. -/
def specEdgeUri (defaultProto pipelineId : String) (p q : PlanConf) : String :=
  match p.outputUri with
  | some ou => ou
  | none =>
      match q.inputUri with
      | some iu => iu
      | none => synthUri defaultProto pipelineId p.nodeId

/-- The spec-side welded plan list (spec section 4.8, weld rules) from p
onward: every internal edge carries specEdgeUri on both sides; the pipeline
endpoints (first input, last output) are untouched. -/
def specWeldAux (defaultProto pipelineId : String) :
    PlanConf → List PlanConf → List PlanConf
  | p, [] => [p]
  | p, q :: rest =>
      let u := specEdgeUri defaultProto pipelineId p q
      { p with outputUri := some u } ::
        specWeldAux defaultProto pipelineId { q with inputUri := some u } rest

/-- The spec-side welded plan list over the whole plan list. -/
def specWeld (defaultProto pipelineId : String) : List PlanConf → List PlanConf
  | [] => []
  | p :: rest => specWeldAux defaultProto pipelineId p rest

/-- UnifiedOperatorPipeline.create (pipeline.py lines 601-604): welding runs
strictly before _materialize_topology and _clear_streams_if_needed, so a
weld error is raised before any stream is created or cleared.  The ok value
collects the output URIs whose streams the two later steps would touch. -/
def createWeldThenEffects (defaultProto pipelineId : String)
    (plans : List PlanConf) : Except String (List String) :=
  match weldTopology defaultProto pipelineId plans with
  | Except.error e => Except.error e
  | Except.ok welded => Except.ok (welded.filterMap (fun p => p.outputUri))

/- ====================================================================
   Node run loops: impl/node.py (BatchNode.run, ParallelBatchNode.run)
   ==================================================================== -/

/-- The observable events of one node run loop, in program order.
saveCheckpoint carries the current progress the persisted checkpoint
records (BasePipeline.save_checkpoint reads node.get_progress(), which is
the value setCurrentProgress just stored).  invokeProcessBatch is the call
self.process_batch(data) of the sequential loop; submitTask is
executor.submit of the parallel loop, which strictly precedes the in-task
process_batch call. -/
inductive RunEvent where
  | checkCancelled
  | acquirePermit
  | setCurrentProgress (current : Nat)
  | reportProgress (current total : Nat)
  | saveCheckpoint (current : Nat)
  | invokeProcessBatch (batchIdx : Nat)
  | submitTask (batchIdx : Nat)
  | writeResult (batchIdx : Nat)
deriving DecidableEq, Repr

/-- BatchNode.run loop body per yielded batch (node.py lines 301-321).
Arguments: hasCtx whether self.ctx is set (the pipeline always sets one;
NodeContextImpl always has save_checkpoint, so the hasattr test passes),
totObs k the value of reader.total_count observed at batch k, wrote k
whether the writer exists and batch k produced a non-empty result.
completed is reader.completed_count, already advanced past each batch
before it is yielded (GenericReader.read, bus.py line 297). -/
def batchNodeRunEvents (hasCtx : Bool) (totObs : Nat → Nat) (wrote : Nat → Bool) :
    Nat → Nat → Nat → List Nat → List RunEvent
  | _, _, _, [] => []
  | k, completed, total, sz :: rest =>
      let completedAfter := completed + sz
      let totalAfter := if total = 0 ∨ total < totObs k then totObs k else total
      ([RunEvent.checkCancelled, RunEvent.setCurrentProgress completedAfter] ++
        (if hasCtx then
          [RunEvent.reportProgress completedAfter totalAfter,
           RunEvent.saveCheckpoint completedAfter]
         else []) ++
        [RunEvent.invokeProcessBatch k] ++
        (if wrote k then [RunEvent.writeResult k] else [])) ++
      batchNodeRunEvents hasCtx totObs wrote (k + 1) completedAfter totalAfter rest

/-- ParallelBatchNode.run loop body per yielded batch (node.py lines
373-407): semaphore acquire first, then the same progress, report and
checkpoint steps, then executor.submit.  The submitted task performs
process_batch and the write; it can only start after submitTask. -/
def parallelBatchNodeRunEvents (hasCtx : Bool) (totObs : Nat → Nat) :
    Nat → Nat → Nat → List Nat → List RunEvent
  | _, _, _, [] => []
  | k, completed, total, sz :: rest =>
      let completedAfter := completed + sz
      let totalAfter := if total = 0 ∨ total < totObs k then totObs k else total
      ([RunEvent.checkCancelled, RunEvent.acquirePermit,
        RunEvent.setCurrentProgress completedAfter] ++
        (if hasCtx then
          [RunEvent.reportProgress completedAfter totalAfter,
           RunEvent.saveCheckpoint completedAfter]
         else []) ++
        [RunEvent.submitTask k]) ++
      parallelBatchNodeRunEvents hasCtx totObs (k + 1) completedAfter totalAfter rest

/- ====================================================================
   Checkpoint persistence: core/hooks.py
   (DefaultPipelineHooks.on_checkpoint, lines 275-286, and
    JsonFileCheckpointHooks._save_checkpoint, lines 343-348)
   ==================================================================== -/

/-- A value inside one node_progress entry: the code only ever stores the
ints current and total and the status string there. -/
inductive EntryVal where
  | num (n : Nat)
  | str (s : String)
deriving DecidableEq, Repr

/-- A node_progress entry, embedded as the underlying Python dict: an
insertion-ordered association list. -/
abbrev ProgressEntry := List (String × EntryVal)

/-- Python dict assignment d key = v: overwrite in place when the key
exists, else append. -/
def dictSet (d : ProgressEntry) (k : String) (v : EntryVal) : ProgressEntry :=
  if d.any (fun p => p.1 = k) then
    d.map (fun p => if p.1 = k then (k, v) else p)
  else d ++ [(k, v)]

/-- Python d.get(key, 0) for a numeric entry. -/
def dictGetNum (d : ProgressEntry) (k : String) : Nat :=
  match d.find? (fun p => p.1 = k) with
  | some (_, EntryVal.num n) => n
  | _ => 0

/-- The fresh entry produced by node_progress.setdefault
(hooks.py line 277). -/
def freshProgressEntry : ProgressEntry :=
  [("current", EntryVal.num 0), ("total", EntryVal.num 0)]

/-- The checkpoint payload assembled by BasePipeline.save_checkpoint
(pipeline.py lines 144-149); it always carries all four keys, usage being
the per-node token counters fetched from the in-memory hook. -/
structure CheckpointPayload where
  current : Nat
  total : Nat
  status : String
  usage : List (String × Nat)
deriving DecidableEq, Repr

/-- DefaultPipelineHooks.on_checkpoint (hooks.py lines 275-286): update the
node_progress entry keys current, total and status from the payload; the
usage value is stored in the separate node_usages dict, never in the
entry. -/
def onCheckpointUpdate (info : ProgressEntry) (usages : List (String × Nat))
    (cp : CheckpointPayload) : ProgressEntry × List (String × Nat) :=
  let _ := usages
  let info1 := if dictGetNum info "current" < cp.current then
      dictSet info "current" (EntryVal.num cp.current) else info
  let info2 := dictSet info1 "total" (EntryVal.num cp.total)
  let info3 := dictSet info2 "status" (EntryVal.str cp.status)
  (info3, cp.usage)

/-- The JSON document written by JsonFileCheckpointHooks._save_checkpoint
(hooks.py lines 343-348): top-level keys nodes, updated_at, pipeline_id;
nodes maps node_id to its node_progress entry, exactly as held in
memory. -/
structure CheckpointDoc where
  nodes : List (String × ProgressEntry)
  updatedAt : Nat
  pipelineId : String
deriving DecidableEq, Repr

/-- _save_checkpoint as a function of the in-memory node_progress dict. -/
def savedCheckpointDoc (nodeProgress : List (String × ProgressEntry))
    (now : Nat) (pid : String) : CheckpointDoc :=
  { nodes := nodeProgress, updatedAt := now, pipelineId := pid }

/- ====================================================================
   Tail-follow loop: impl/bus/stream_bridge.py (StreamBridge.read_stream)
   and impl/bus/bus.py (GenericReader)
   ==================================================================== -/

/-- JsonlStorage.read semantics (jsonl_storage.py lines 30-50, spec
storage contract): the records in positions offset to
min(offset + limit, size). -/
def storageRead (snap : List α) (offset limit : Nat) : List α :=
  (snap.drop offset).take limit

/-- One observation of the shared storage and channel state, as seen by one
interaction of the tail-follow loop with its environment: the storage
contents, the channel EOF flag, the storage seal flag, and what
channel.wait would return if called now. -/
structure StreamObs (α : Type) where
  snap : List α
  eofFlag : Bool
  sealedFlag : Bool
  waitOk : Bool

/-- The is_done test of read_stream (stream_bridge.py line 41):
channel.is_eof() or storage.is_finished(). -/
def StreamObs.done (o : StreamObs α) : Bool := o.eofFlag || o.sealedFlag

/-- The final drain loop of read_stream (stream_bridge.py lines 55-61):
read and yield until a read comes back empty, then return.  obs t is the
environment at the t-th interaction; fuel bounds the number of
interactions, none meaning the fuel ran out before the loop returned. -/
def bridgeDrain (obs : Nat → StreamObs α) (batchSize : Nat) :
    Nat → Nat → Nat → List (List α) × Option Nat
  | 0, _, _ => ([], none)
  | fuel + 1, t, offset =>
      let b := storageRead (obs t).snap offset batchSize
      if b.isEmpty then ([], some offset)
      else
        let r := bridgeDrain obs batchSize fuel (t + 1) (offset + b.length)
        (b :: r.1, r.2)

/-- StreamBridge.read_stream (stream_bridge.py lines 16-73) over the
observation trace obs, starting at a given offset with the given
zero_data_retries counter.  Each outer iteration consumes one observation
(the anneal branch reads once more and consumes a second one).  The result
is the list of yielded batches plus some end offset when the loop
returned within fuel interactions. -/
def bridgeRun (obs : Nat → StreamObs α) (batchSize : Nat) :
    Nat → Nat → Nat → Nat → List (List α) × Option Nat
  | 0, _, _, _ => ([], none)
  | fuel + 1, t, offset, retries =>
      let o := obs t
      let b := storageRead o.snap offset batchSize
      if b.isEmpty then
        -- nothing new: decide whether the stream ended
        if o.done then
          if offset = 0 ∧ retries < 5 then
            -- early-EOF guard: sleep and retry against a stale seal
            bridgeRun obs batchSize fuel (t + 1) offset (retries + 1)
          else bridgeDrain obs batchSize fuel (t + 1) offset
        else if o.waitOk then bridgeRun obs batchSize fuel (t + 1) offset retries
        else
          -- wait timed out: anneal read for an under-full tail
          let fb := storageRead (obs (t + 1)).snap offset batchSize
          if fb.isEmpty then bridgeRun obs batchSize fuel (t + 2) offset retries
          else
            let r := bridgeRun obs batchSize fuel (t + 2) (offset + fb.length) retries
            (fb :: r.1, r.2)
      else if batchSize ≤ b.length then
        -- full batch: yield and greedily continue
        let r := bridgeRun obs batchSize fuel (t + 1) (offset + b.length) 0
        (b :: r.1, r.2)
      else
        -- under-full batch: yield, then run the done check on the same
        -- observation with the advanced offset and a reset retry counter
        let off2 := offset + b.length
        if o.done then
          if off2 = 0 ∧ (0 : Nat) < 5 then
            let r := bridgeRun obs batchSize fuel (t + 1) off2 1
            (b :: r.1, r.2)
          else
            let r := bridgeDrain obs batchSize fuel (t + 1) off2
            (b :: r.1, r.2)
        else if o.waitOk then
          let r := bridgeRun obs batchSize fuel (t + 1) off2 0
          (b :: r.1, r.2)
        else
          let fb := storageRead (obs (t + 1)).snap off2 batchSize
          if fb.isEmpty then
            let r := bridgeRun obs batchSize fuel (t + 2) off2 0
            (b :: r.1, r.2)
          else
            let r := bridgeRun obs batchSize fuel (t + 2) (off2 + fb.length) 0
            (b :: fb :: r.1, r.2)

/-- GenericReader.read (bus.py lines 285-298) over the batches the bridge
yielded: for each raw record the anchor is the _i value when present
(anchorKey), else the physical index completed + position; the data list
keeps every record; completed_count advances by the batch length before the
pair is yielded.  Returns the yielded pairs and the final
completed_count. -/
def readerRead (anchorKey : α → Option ι) :
    Nat → List (List α) → List (List α × List (ι ⊕ Nat)) × Nat
  | completed, [] => ([], completed)
  | completed, batch :: rest =>
      let dataList := batch
      let idList := batch.mapIdx (fun i raw =>
        match anchorKey raw with
        | some a => Sum.inl a
        | none => Sum.inr (completed + i))
      if dataList.isEmpty then readerRead anchorKey completed rest
      else
        let r := readerRead anchorKey (completed + dataList.length) rest
        ((dataList, idList) :: r.1, r.2)

/-- GenericReader.close (bus.py line 304): it sets the sticky EOF flag on
the shared channel. -/
def genericReaderClose (channel : ChannelState) : ChannelState :=
  channel.set_eof

/-- Position of the envelope of the non-null item at item index i inside
its group: the number of non-null items before it. -/
def envelopePos (items : List (Option α)) (i : Nat) : Nat :=
  (items.take i).countP (fun o => o.isSome)

/-- Total function computing the first weld loop on a mismatch-free plan
list (same branch structure as weldEdges, with the raise branch collapsed
into the keep branch); used to state what weldEdges returns when it does
not raise. -/
def pass1Spec : PlanConf → List PlanConf → List PlanConf
  | prev, [] => [prev]
  | prev, c :: rest =>
      match c.inputUri, prev.outputUri with
      | some iu, none => { prev with outputUri := some iu } :: pass1Spec c rest
      | none, some ou => prev :: pass1Spec { c with inputUri := some ou } rest
      | some _, some _ => prev :: pass1Spec c rest
      | none, none => prev :: pass1Spec c rest

/-- Whether an Except value is an ok value. -/
def exceptIsOk : Except ε σ → Bool
  | Except.ok _ => true
  | Except.error _ => false

/- ====================================================================
   Theorems
   ==================================================================== -/

/-- C3, counterexample: the claim states that after set_eof() every
subsequent wait(timeout) call returns true.  On the code, wait checks the
EOF flag first and returns False: starting from a fresh channel, after
set_eof the EOF flag is set, yet waitResult is false even when a notify
arrives (condWaitOutcome true). -/
theorem c3_counterexample :
    (ChannelState.set_eof ⟨false, 0⟩).is_eof = true ∧
    ChannelState.waitResult 0 (ChannelState.set_eof ⟨false, 0⟩) true = false := by
  decide

/-- C3, amended: ThreadingChannel.wait returns false immediately when EOF
is set; otherwise it returns true when the version advanced since entry,
and otherwise blocks up to the timeout and returns the condition-wait
outcome.  In particular after set_eof every subsequent wait returns
false, not true. -/
theorem c3_wait_contract (v : Nat) (s : ChannelState) (c : Bool) :
    ChannelState.waitResult v (ChannelState.set_eof s) c = false ∧
    (s.eof = false → v < s.version → ChannelState.waitResult v s c = true) ∧
    (s.eof = false → s.version ≤ v → ChannelState.waitResult v s c = c) := by
  refine ⟨by simp [ChannelState.waitResult, ChannelState.set_eof], ?_, ?_⟩
  · intro he hv
    simp [ChannelState.waitResult, he, hv]
  · intro he hv
    simp [ChannelState.waitResult, he, Nat.not_lt.mpr hv]

/-- C3, witness: the amended contract evaluated on concrete channels. -/
theorem c3_wait_contract_witness :
    ChannelState.waitResult 0 (ChannelState.set_eof ⟨false, 1⟩) true = false ∧
    ChannelState.waitResult 0 ⟨false, 1⟩ false = true ∧
    ChannelState.waitResult 2 ⟨false, 1⟩ false = false :=
  ⟨(c3_wait_contract 0 ⟨false, 1⟩ true).1,
   (c3_wait_contract 0 ⟨false, 1⟩ false).2.1 rfl (by decide),
   (c3_wait_contract 2 ⟨false, 1⟩ false).2.2 rfl (by decide)⟩

/-- C7, counterexample: the claim states that opening a node whose status
is canceled leaves that status unchanged.  BaseNode.open only spares
COMPLETED: on a canceled node it overwrites the status with running. -/
theorem c7_counterexample :
    openStatus NodeStatus.canceled = NodeStatus.running ∧
    NodeStatus.running ≠ NodeStatus.canceled := by
  decide

/-- C7, amended: open() sets the node status to running exactly when the
current status is not completed; only a completed status is left
unchanged (a canceled status is overwritten like any other). -/
theorem c7_open_status (s : NodeStatus) (h : s ≠ NodeStatus.completed) :
    openStatus s = NodeStatus.running ∧
    openStatus NodeStatus.completed = NodeStatus.completed := by
  constructor
  · simp [openStatus, h]
  · simp [openStatus]

/-- C7, witness: the amended statement evaluated on a pending node. -/
theorem c7_open_status_witness :
    openStatus NodeStatus.pending = NodeStatus.running ∧
    openStatus NodeStatus.completed = NodeStatus.completed :=
  c7_open_status NodeStatus.pending (by decide)

/-- C6: the claim (and the CANCELING to CANCELED promotion in the
streaming engine itself) says the final status is canceled when a node was
canceled and none failed.  But NodePipeline.close runs after that
promotion and unconditionally overwrites the status with completed or
failed, so no run of either engine can end with status canceled: at the
failing input (status canceling at the finally block, no failure recorded,
success true) the observed final status is completed. -/
theorem c6_final_status_never_canceled :
    streamingRunFinalStatus PipelineStatus.canceling true = PipelineStatus.completed ∧
    sequentialRunFinalStatus PipelineStatus.canceling true = PipelineStatus.completed ∧
    ∀ s ok, streamingRunFinalStatus s ok ≠ PipelineStatus.canceled ∧
      sequentialRunFinalStatus s ok ≠ PipelineStatus.canceled := by
  refine ⟨rfl, rfl, ?_⟩
  intro s ok
  cases ok <;>
    exact ⟨by simp [streamingRunFinalStatus, nodePipelineClose],
           by simp [sequentialRunFinalStatus, nodePipelineClose]⟩

/-- C5, counterexample: the claim states that the storage behind the
externally supplied output_uri endpoint is left unchanged by a fresh
create().  In a two-node plan (input node with the external input stream 0
and intermediate output stream 1, output node reading stream 1 and holding
the external output stream 2), _clear_streams_if_needed clears every node
output stream other than stream 0, so the external output stream 2 is
cleared. -/
theorem c5_counterexample :
    2 ∈ clearedStreams [⟨0, some 1⟩, ⟨1, some 2⟩] ∧
    0 ∉ clearedStreams [⟨0, some 1⟩, ⟨1, some 2⟩] := by
  decide

/-- C5, amended: on fresh create(), _clear_streams_if_needed physically
clears exactly the bound node output storages that are not the first node
input stream object.  The externally supplied input storage (the first
node input stream) is never cleared, but the externally supplied output
storage, being the last node output stream and a distinct stream object,
is cleared together with the internal intermediates.  (The checkpoint,
report and runtime files under the results directory are deleted as the
original claim states.) -/
theorem c5_cleared_streams_spec (n0 : NodeStreams) (rest : List NodeStreams)
    (s : Nat) :
    (s ∈ clearedStreams (n0 :: rest) ↔
      (∃ n ∈ n0 :: rest, n.outputStream = some s) ∧ s ≠ n0.inputStream) ∧
    n0.inputStream ∉ clearedStreams (n0 :: rest) := by
  have hchar : ∀ x : Nat, x ∈ clearedStreams (n0 :: rest) ↔
      (∃ n ∈ n0 :: rest, n.outputStream = some x) ∧ x ≠ n0.inputStream := by
    intro x
    simp only [clearedStreams, List.mem_filterMap]
    constructor
    · rintro ⟨n, hn, hopt⟩
      split at hopt
      · exact absurd hopt (by simp)
      · rename_i v hout
        split at hopt
        · rename_i hv
          obtain rfl : v = x := Option.some.inj hopt
          exact ⟨⟨n, hn, hout⟩, hv⟩
        · exact absurd hopt (by simp)
    · rintro ⟨⟨n, hn, hout⟩, hx⟩
      refine ⟨n, hn, ?_⟩
      rw [hout]
      exact if_pos hx
  refine ⟨hchar s, fun hmem => ?_⟩
  exact ((hchar n0.inputStream).1 hmem).2 rfl

theorem groupEnvelopes_getElem (anchors : Option (List ι)) (startIdx : Nat) :
    ∀ (items : List (Option α)) (j i : Nat) (x : α),
      items[i]? = some (some x) →
      (groupEnvelopes anchors startIdx j items)[envelopePos items i]? =
        some ⟨anchorRule anchors startIdx (j + i), x⟩ := by
  intro items
  induction items with
  | nil => intro j i x hx; simp at hx
  | cons hd rest ih =>
      intro j i x hx
      cases hd with
      | none =>
          cases i with
          | zero => simp at hx
          | succ i =>
              simp only [List.getElem?_cons_succ] at hx
              have h := ih (j + 1) i x hx
              simpa [groupEnvelopes, envelopePos, List.take_succ_cons,
                Nat.add_assoc, Nat.add_comm 1 i,
                List.countP_cons] using h
      | some y =>
          cases i with
          | zero =>
              simp only [List.getElem?_cons_zero, Option.some.injEq] at hx
              obtain rfl := hx
              simp [groupEnvelopes, envelopePos]
          | succ i =>
              simp only [List.getElem?_cons_succ] at hx
              have h := ih (j + 1) i x hx
              have hpos : envelopePos (some y :: rest) (i + 1) =
                  envelopePos rest i + 1 := by
                simp [envelopePos, List.take_succ_cons, List.countP_cons,
                  Option.isSome]
              rw [hpos]
              simpa [groupEnvelopes, Nat.add_assoc, Nat.add_comm 1 i] using h

/-- C4, counterexample: the claim states that, apart from the
equal-length-anchor case, each envelope gets auto with its own position in
the destination storage, dense and gap-free, for every input including
nulls and shorter anchor lists.  Two concrete writes refute it: skipping a
null makes the only envelope land at storage position 0 with anchor
auto_1, and a length-1 anchor list against two items is consumed as a
prefix, so the first envelope carries the supplied anchor rather than an
auto offset. -/
theorem c4_counterexample :
    (writerWrite (⟨[], 0, ⟨false, 0⟩⟩ : WriterState String Nat)
        [none, some 7] none).storage =
      [⟨Sum.inr "auto_1", 7⟩] ∧
    ("auto_1" : String) ≠ "auto_0" ∧
    (writerWrite (⟨[], 0, ⟨false, 0⟩⟩ : WriterState String Nat)
        [some 1, some 2] (some ["a"])).storage =
      [⟨Sum.inl "a", 1⟩, ⟨Sum.inr "auto_1", 2⟩] := by
  refine ⟨by decide, by decide, by decide⟩

/-- C4, amended: for every write through GenericWriter, the envelope of
the non-null item at item index i (nulls included in the count) carries
_i equal to anchors at index i whenever the anchor list is non-empty and i
is within it — a shorter anchor list is consumed as a prefix — and
otherwise auto of written_count + i, where i counts skipped nulls, so a
null shifts later auto offsets past the envelopes their storage positions.
When no item is null and no anchors are supplied, the auto offsets are
exactly the dense, gap-free absolute positions in the destination
storage. -/
theorem writerWrite_getElem (st : WriterState ι α) (items : List (Option α))
    (anchors : Option (List ι)) (i : Nat) (x : α)
    (hx : items[i]? = some (some x)) :
    ((writerWrite st items anchors).storage)[st.storage.length + envelopePos items i]? =
      some ⟨anchorRule anchors st.writtenCount i, x⟩ := by
  have hg := groupEnvelopes_getElem anchors st.writtenCount items 0 i x hx
  rw [Nat.zero_add] at hg
  have hne : (groupEnvelopes anchors st.writtenCount 0 items).isEmpty = false := by
    cases hemp : (groupEnvelopes anchors st.writtenCount 0 items).isEmpty
    · rfl
    · rw [List.isEmpty_iff] at hemp
      rw [hemp] at hg
      simp at hg
  show (performBatchWrite st [(items, anchors)]).storage[_]? = _
  rw [performBatchWrite]
  simp only [List.foldl_cons, List.foldl_nil, List.nil_append, List.length_nil,
    Nat.add_zero]
  rw [if_neg (by rw [hne]; exact Bool.false_ne_true)]
  show (jsonlAppendEnvelopes st.storage _)[_]? = _
  rw [jsonlAppendEnvelopes, List.getElem?_append_right (Nat.le_add_right _ _),
    Nat.add_sub_cancel_left]
  exact hg

theorem c4_anchor_policy (st : WriterState ι α) (items : List (Option α))
    (anchors : Option (List ι)) (i : Nat) (x : α)
    (hwc : st.writtenCount = st.storage.length)
    (hx : items[i]? = some (some x)) :
    ((writerWrite st items anchors).storage)[st.storage.length + envelopePos items i]? =
      some ⟨anchorRule anchors st.writtenCount i, x⟩ ∧
    (∀ (ys : List α) (k : Nat) (y : α), ys[k]? = some y →
      ((writerWrite st (ys.map some) none).storage)[st.writtenCount + k]? =
        some ⟨Sum.inr ("auto_" ++ toString (st.writtenCount + k)), y⟩) := by
  refine ⟨writerWrite_getElem st items anchors i x hx, ?_⟩
  intro ys k y hy
  have hk : k < ys.length := (List.getElem?_eq_some.1 hy).1
  have hy2 : (ys.map some)[k]? = some (some y) := by
    rw [List.getElem?_map, hy]
    rfl
  have hpos : envelopePos (ys.map some) k = k := by
    rw [envelopePos, ← List.map_take, List.countP_map]
    have : ∀ a ∈ ys.take k, ((fun o => Option.isSome o) ∘ some) a = true := by
      intro a _
      rfl
    rw [List.countP_eq_length.2 this, List.length_take]
    exact Nat.min_eq_left (Nat.le_of_lt hk)
  have h := writerWrite_getElem st (ys.map some) none k y hy2
  rw [hpos, ← hwc] at h
  exact h

/-- C4, witness for the amended statement: the null-skipping write and the
prefix-anchor write evaluated concretely through the theorem. -/
theorem c4_anchor_policy_witness :
    ((writerWrite (⟨[], 0, ⟨false, 0⟩⟩ : WriterState String Nat)
        [none, some 7] none).storage)[0]? =
      some ⟨Sum.inr "auto_1", 7⟩ ∧
    ((writerWrite (⟨[], 0, ⟨false, 0⟩⟩ : WriterState String Nat)
        [some 1, some 2] (some ["a"])).storage)[1]? =
      some ⟨Sum.inr "auto_1", 2⟩ ∧
    ((writerWrite (⟨[], 0, ⟨false, 0⟩⟩ : WriterState String Nat)
        [some 5] none).storage)[0]? =
      some ⟨Sum.inr "auto_0", 5⟩ :=
  ⟨(c4_anchor_policy ⟨[], 0, ⟨false, 0⟩⟩ [none, some 7] none 1 7 rfl
      (by decide)).1,
   (c4_anchor_policy ⟨[], 0, ⟨false, 0⟩⟩ [some 1, some 2] (some ["a"]) 1 2 rfl
      (by decide)).1,
   (c4_anchor_policy ⟨[], 0, ⟨false, 0⟩⟩ [some 5] none 0 5 rfl
      (by decide)).2 [5] 0 5 (by decide)⟩

theorem onCheckpointUpdate_fresh (cp : CheckpointPayload) :
    (onCheckpointUpdate freshProgressEntry [] cp).1 =
      [("current", EntryVal.num cp.current), ("total", EntryVal.num cp.total),
       ("status", EntryVal.str cp.status)] := by
  rcases cp with ⟨c, tot, st, us⟩
  rcases Nat.eq_zero_or_pos c with h | h
  · subst h
    rfl
  · have h2 : dictGetNum freshProgressEntry "current" < c := h
    simp only [onCheckpointUpdate]
    rw [if_pos h2]
    rfl

/-- C8: the claim states that every checkpoint.json write carries, for
each node, its usage counters next to the progress in a single write.  The
code disagrees with itself here: BasePipeline.save_checkpoint puts usage
on the payload it hands to on_checkpoint, but DefaultPipelineHooks
.on_checkpoint stores usage in the separate node_usages dict and only
current, total and status in the node_progress entry, and
JsonFileCheckpointHooks._save_checkpoint writes only node_progress.  So
the per-node entry of every written checkpoint.json is exactly current,
total, status — the usage key is never present — while the top-level
document shape nodes, updated_at, pipeline_id does hold. -/
theorem c8_checkpoint_misses_usage :
    (∀ cp : CheckpointPayload,
      ((onCheckpointUpdate freshProgressEntry [] cp).1).any
        (fun p => decide (p.1 = "usage")) = false) ∧
    (savedCheckpointDoc
        [("node_0",
          (onCheckpointUpdate freshProgressEntry []
            ⟨1, 2, "running", [("total_tokens", 5)]⟩).1)] 0 "pipe").nodes =
      [("node_0",
        [("current", EntryVal.num 1), ("total", EntryVal.num 2),
         ("status", EntryVal.str "running")])] := by
  constructor
  · intro cp
    rw [onCheckpointUpdate_fresh]
    rfl
  · rfl

theorem exceptIsOk_map (f : σ → τ) (e : Except ε σ) :
    exceptIsOk (e.map f) = exceptIsOk e := by
  cases e <;> rfl

theorem hasEdgeMismatch_update_input (c : PlanConf) (v : Option String)
    (rest : List PlanConf) :
    hasEdgeMismatch ({ c with inputUri := v } :: rest) =
      hasEdgeMismatch (c :: rest) := by
  cases rest <;> rfl

theorem planConf_update_input_self (c : PlanConf) (v : Option String)
    (h : c.inputUri = v) : { c with inputUri := v } = c := by
  cases c
  cases h
  rfl

theorem planConf_update_output_self (c : PlanConf) (v : Option String)
    (h : c.outputUri = v) : { c with outputUri := v } = c := by
  cases c
  cases h
  rfl

theorem weldEdges_isOk : ∀ (rest : List PlanConf) (prev : PlanConf),
    exceptIsOk (weldEdges prev rest) = ! hasEdgeMismatch (prev :: rest) := by
  intro rest
  induction rest with
  | nil => intro prev; rfl
  | cons c rs ih =>
      intro prev
      rcases c with ⟨cn, ci, co⟩
      rcases prev with ⟨pn, pi, po⟩
      cases ci with
      | none =>
          cases po with
          | none =>
              simp only [weldEdges, hasEdgeMismatch, exceptIsOk_map,
                ih ⟨cn, none, co⟩, Bool.false_or]
          | some ou =>
              have h2 := ih ⟨cn, some ou, co⟩
              have h3 : hasEdgeMismatch (⟨cn, some ou, co⟩ :: rs) =
                  hasEdgeMismatch (⟨cn, none, co⟩ :: rs) :=
                hasEdgeMismatch_update_input ⟨cn, none, co⟩ (some ou) rs
              simp only [weldEdges, hasEdgeMismatch, exceptIsOk_map, h2, h3,
                Bool.false_or]
      | some iu =>
          cases po with
          | none =>
              simp only [weldEdges, hasEdgeMismatch, exceptIsOk_map,
                ih ⟨cn, some iu, co⟩, Bool.false_or]
          | some ou =>
              simp only [weldEdges, hasEdgeMismatch]
              by_cases hne : iu = ou
              · subst hne
                rw [if_neg (by simp)]
                simp [exceptIsOk_map, ih ⟨cn, some iu, co⟩]
              · rw [if_pos (by simpa using hne)]
                simp [exceptIsOk, hne]

theorem weldEdges_ok_of_no_mismatch :
    ∀ (rest : List PlanConf) (prev : PlanConf),
      hasEdgeMismatch (prev :: rest) = false →
      weldEdges prev rest = Except.ok (pass1Spec prev rest) := by
  intro rest
  induction rest with
  | nil => intro prev _; rfl
  | cons c rs ih =>
      intro prev h
      rcases c with ⟨cn, ci, co⟩
      rcases prev with ⟨pn, pi, po⟩
      cases ci with
      | none =>
          cases po with
          | none =>
              simp only [hasEdgeMismatch, Bool.or_eq_false_iff] at h
              simp only [weldEdges, pass1Spec, ih ⟨cn, none, co⟩ h.2]
              rfl
          | some ou =>
              simp only [hasEdgeMismatch, Bool.or_eq_false_iff] at h
              have hmm : hasEdgeMismatch (⟨cn, some ou, co⟩ :: rs) = false := by
                rw [hasEdgeMismatch_update_input ⟨cn, none, co⟩ (some ou) rs]
                exact h.2
              simp only [weldEdges, pass1Spec, ih ⟨cn, some ou, co⟩ hmm]
              rfl
      | some iu =>
          cases po with
          | none =>
              simp only [hasEdgeMismatch, Bool.or_eq_false_iff] at h
              simp only [weldEdges, pass1Spec, ih ⟨cn, some iu, co⟩ h.2]
              rfl
          | some ou =>
              simp only [hasEdgeMismatch, Bool.or_eq_false_iff] at h
              have hne : ¬ iu ≠ ou := by
                intro hk
                have h1 := h.1
                simp [hk] at h1
              simp only [weldEdges, pass1Spec]
              rw [if_neg hne, ih ⟨cn, some iu, co⟩ h.2]
              rfl

theorem pass1Spec_ne_nil : ∀ (rest : List PlanConf) (prev : PlanConf),
    pass1Spec prev rest ≠ [] := by
  intro rest prev
  cases rest with
  | nil => simp [pass1Spec]
  | cons c rs =>
      simp only [pass1Spec]
      cases c.inputUri <;> cases prev.outputUri <;> simp

theorem specWeldAux_ne_nil (proto pid : String) :
    ∀ (rest : List PlanConf) (prev : PlanConf),
      specWeldAux proto pid prev rest ≠ [] := by
  intro rest prev
  cases rest <;> simp [specWeldAux]

theorem specWeldAux_update_input (proto pid : String)
    (rs : List PlanConf) (c : PlanConf) (v : Option String) :
    specWeldAux proto pid { c with inputUri := v } rs =
      match specWeldAux proto pid c rs with
      | [] => []
      | h :: t => { h with inputUri := v } :: t := by
  cases c
  cases rs <;> rfl

theorem weldSynthAux_update_input (proto pid : String)
    (rest : List PlanConf) (p : PlanConf) (v : Option String) :
    weldSynthAux proto pid { p with inputUri := v } rest =
      match weldSynthAux proto pid p rest with
      | [] => []
      | h :: t => { h with inputUri := v } :: t := by
  rcases p with ⟨n, i, o⟩
  cases rest with
  | nil => rfl
  | cons q t => cases o <;> rfl

theorem weldSynth_pass1Spec (proto pid : String) :
    ∀ (rest : List PlanConf) (prev : PlanConf),
      hasEdgeMismatch (prev :: rest) = false →
      weldSynth proto pid (pass1Spec prev rest) =
        specWeldAux proto pid prev rest := by
  intro rest
  induction rest with
  | nil =>
      intro prev _
      rfl
  | cons c rs ih =>
      intro prev h
      rcases c with ⟨cn, ci, co⟩
      rcases prev with ⟨pn, pi, po⟩
      simp only [hasEdgeMismatch, Bool.or_eq_false_iff] at h
      cases ci with
      | none =>
          cases po with
          | none =>
              -- both blank: synthesize and push into the next input
              have hih := ih ⟨cn, none, co⟩ h.2
              cases hps : pass1Spec ⟨cn, none, co⟩ rs with
              | nil => exact absurd hps (pass1Spec_ne_nil rs _)
              | cons h1 t1 =>
                  rw [hps] at hih
                  simp only [pass1Spec, specWeldAux, specEdgeUri, hps]
                  show weldSynthAux proto pid ⟨pn, pi, none⟩ (h1 :: t1) = _
                  have hlhs : weldSynthAux proto pid ⟨pn, pi, none⟩ (h1 :: t1) =
                      (⟨pn, pi, some (synthUri proto pid pn)⟩ : PlanConf) ::
                        weldSynthAux proto pid
                          { h1 with inputUri := some (synthUri proto pid pn) } t1 := rfl
                  rw [hlhs, weldSynthAux_update_input]
                  have hsw : weldSynthAux proto pid h1 t1 =
                      specWeldAux proto pid ⟨cn, none, co⟩ rs := hih
                  rw [hsw]
                  rw [show specWeldAux proto pid
                      ⟨cn, some (synthUri proto pid pn), co⟩ rs =
                      (match specWeldAux proto pid ⟨cn, none, co⟩ rs with
                       | [] => []
                       | h :: t =>
                          { h with inputUri := some (synthUri proto pid pn) } :: t) from
                    specWeldAux_update_input proto pid rs ⟨cn, none, co⟩
                      (some (synthUri proto pid pn))]
          | some ou =>
              have hmm : hasEdgeMismatch ((⟨cn, some ou, co⟩ : PlanConf) :: rs) = false := by
                rw [hasEdgeMismatch_update_input ⟨cn, none, co⟩ (some ou) rs]
                exact h.2
              have hih := ih ⟨cn, some ou, co⟩ hmm
              cases hps : pass1Spec ⟨cn, some ou, co⟩ rs with
              | nil => exact absurd hps (pass1Spec_ne_nil rs _)
              | cons h1 t1 =>
                  rw [hps] at hih
                  simp only [pass1Spec, specWeldAux, specEdgeUri, hps]
                  show weldSynthAux proto pid ⟨pn, pi, some ou⟩ (h1 :: t1) = _
                  have hlhs : weldSynthAux proto pid ⟨pn, pi, some ou⟩ (h1 :: t1) =
                      (⟨pn, pi, some ou⟩ : PlanConf) ::
                        weldSynthAux proto pid h1 t1 := rfl
                  have hih2 : weldSynthAux proto pid h1 t1 =
                      specWeldAux proto pid ⟨cn, some ou, co⟩ rs := hih
                  rw [hlhs, hih2]
      | some iu =>
          cases po with
          | none =>
              have hih := ih ⟨cn, some iu, co⟩ h.2
              cases hps : pass1Spec ⟨cn, some iu, co⟩ rs with
              | nil => exact absurd hps (pass1Spec_ne_nil rs _)
              | cons h1 t1 =>
                  rw [hps] at hih
                  simp only [pass1Spec, specWeldAux, specEdgeUri, hps]
                  show weldSynthAux proto pid ⟨pn, pi, some iu⟩ (h1 :: t1) = _
                  have hlhs : weldSynthAux proto pid ⟨pn, pi, some iu⟩ (h1 :: t1) =
                      (⟨pn, pi, some iu⟩ : PlanConf) ::
                        weldSynthAux proto pid h1 t1 := rfl
                  have hih2 : weldSynthAux proto pid h1 t1 =
                      specWeldAux proto pid ⟨cn, some iu, co⟩ rs := hih
                  rw [hlhs, hih2]
          | some ou =>
              have heq : iu = ou := by
                have h1 := h.1
                by_contra hk
                simp [Ne, hk] at h1
              cases heq
              have hih := ih ⟨cn, some iu, co⟩ h.2
              cases hps : pass1Spec ⟨cn, some iu, co⟩ rs with
              | nil => exact absurd hps (pass1Spec_ne_nil rs _)
              | cons h1 t1 =>
                  rw [hps] at hih
                  simp only [pass1Spec, specWeldAux, specEdgeUri, hps]
                  show weldSynthAux proto pid ⟨pn, pi, some iu⟩ (h1 :: t1) = _
                  have hlhs : weldSynthAux proto pid ⟨pn, pi, some iu⟩ (h1 :: t1) =
                      (⟨pn, pi, some iu⟩ : PlanConf) ::
                        weldSynthAux proto pid h1 t1 := rfl
                  have hih2 : weldSynthAux proto pid h1 t1 =
                      specWeldAux proto pid ⟨cn, some iu, co⟩ rs := hih
                  rw [hlhs, hih2]

/-- C9: topology welding raises the configuration error if and only if
some adjacent plan pair declares both sides of its shared edge with
different URIs; since create() runs _weld_topology strictly before
_materialize_topology and _clear_streams_if_needed, the error precedes
every stream side effect.  When there is no mismatch, welding returns
exactly the spec-side weld: on every internal edge the declared URI is
copied to the blank side, and a fully blank edge gets
default_protocol ++ pipeline_id ++ slash ++ node_id ++ extension on both
sides. -/
theorem c9_weld_topology (proto pid : String) (plans : List PlanConf) :
    (exceptIsOk (weldTopology proto pid plans) = false ↔
      hasEdgeMismatch plans = true) ∧
    (hasEdgeMismatch plans = false →
      weldTopology proto pid plans = Except.ok (specWeld proto pid plans)) ∧
    (hasEdgeMismatch plans = true →
      ∃ e, createWeldThenEffects proto pid plans = Except.error e) := by
  have hok : exceptIsOk (weldTopology proto pid plans) = ! hasEdgeMismatch plans := by
    rw [weldTopology, exceptIsOk_map]
    cases plans with
    | nil => rfl
    | cons p rest => exact weldEdges_isOk rest p
  refine ⟨?_, ?_, ?_⟩
  · rw [hok]
    cases hasEdgeMismatch plans <;> simp
  · intro h
    rw [weldTopology]
    cases plans with
    | nil => rfl
    | cons p rest =>
        show Except.map (weldSynth proto pid) (weldEdges p rest) = _
        rw [weldEdges_ok_of_no_mismatch rest p h]
        show Except.ok (weldSynth proto pid (pass1Spec p rest)) = _
        rw [weldSynth_pass1Spec proto pid rest p h]
        rfl
  · intro h
    rw [createWeldThenEffects]
    have : exceptIsOk (weldTopology proto pid plans) = false := by
      rw [hok, h]
      rfl
    cases hwt : weldTopology proto pid plans with
    | error e => exact ⟨e, rfl⟩
    | ok v =>
        rw [hwt] at this
        exact absurd this (by simp [exceptIsOk])

/-- C9, witness: a mismatch-free two-node plan welds to the spec weld with
the synthesized internal URI, and a mismatching plan makes create fail
before any stream effect. -/
theorem c9_weld_topology_witness :
    weldTopology "jsonl://" "pipe"
        [⟨"input", some "jsonl://in.jsonl", none⟩,
         ⟨"output", none, some "jsonl://out.jsonl"⟩] =
      Except.ok (specWeld "jsonl://" "pipe"
        [⟨"input", some "jsonl://in.jsonl", none⟩,
         ⟨"output", none, some "jsonl://out.jsonl"⟩]) ∧
    (specWeld "jsonl://" "pipe"
        [⟨"input", some "jsonl://in.jsonl", none⟩,
         ⟨"output", none, some "jsonl://out.jsonl"⟩]).map
        (fun p => p.outputUri) =
      [some "jsonl://pipe/input.jsonl", some "jsonl://out.jsonl"] ∧
    (∃ e, createWeldThenEffects "jsonl://" "pipe"
        [⟨"a", none, some "jsonl://x.jsonl"⟩,
         ⟨"b", some "jsonl://y.jsonl", none⟩] = Except.error e) :=
  ⟨(c9_weld_topology "jsonl://" "pipe" _).2.1 (by decide),
   by decide,
   (c9_weld_topology "jsonl://" "pipe" _).2.2 (by decide)⟩

theorem batchNodeRunEvents_commit_sublist (totObs : Nat → Nat)
    (wrote : Nat → Bool) :
    ∀ (sizes : List Nat) (k k0 completed total : Nat), k < sizes.length →
      ∃ t, [RunEvent.setCurrentProgress (completed + (sizes.take (k + 1)).sum),
            RunEvent.reportProgress (completed + (sizes.take (k + 1)).sum) t,
            RunEvent.saveCheckpoint (completed + (sizes.take (k + 1)).sum),
            RunEvent.invokeProcessBatch (k0 + k)].Sublist
        (batchNodeRunEvents true totObs wrote k0 completed total sizes) := by
  intro sizes
  induction sizes with
  | nil =>
      intro k k0 completed total hk
      exact absurd hk (by simp)
  | cons sz rest ih =>
      intro k k0 completed total hk
      cases k with
      | zero =>
          refine ⟨if total = 0 ∨ total < totObs k0 then totObs k0 else total, ?_⟩
          simp only [batchNodeRunEvents, List.take_succ_cons, List.take_zero,
            List.sum_cons, List.sum_nil, Nat.add_zero, if_true,
            List.cons_append, List.nil_append]
          refine List.Sublist.cons _ ?_
          refine List.Sublist.cons₂ _ ?_
          refine List.Sublist.cons₂ _ ?_
          refine List.Sublist.cons₂ _ ?_
          refine List.Sublist.cons₂ _ ?_
          exact List.nil_sublist _
      | succ k =>
          have hk2 : k < rest.length := by
            simpa using Nat.lt_of_succ_lt_succ hk
          obtain ⟨t, hsub⟩ := ih k (k0 + 1) (completed + sz)
            (if total = 0 ∨ total < totObs k0 then totObs k0 else total) hk2
          refine ⟨t, ?_⟩
          have e1 : completed + ((sz :: rest).take (k + 1 + 1)).sum =
              completed + sz + (rest.take (k + 1)).sum := by
            simp [List.take_succ_cons, Nat.add_assoc]
          have e2 : k0 + (k + 1) = k0 + 1 + k := by omega
          rw [e1, e2]
          show List.Sublist _ (batchNodeRunEvents true totObs wrote k0 completed
            total (sz :: rest))
          simp only [batchNodeRunEvents]
          exact hsub.trans (List.sublist_append_right _ _)

theorem parallelBatchNodeRunEvents_commit_sublist (totObs : Nat → Nat) :
    ∀ (sizes : List Nat) (k k0 completed total : Nat), k < sizes.length →
      ∃ t, [RunEvent.setCurrentProgress (completed + (sizes.take (k + 1)).sum),
            RunEvent.reportProgress (completed + (sizes.take (k + 1)).sum) t,
            RunEvent.saveCheckpoint (completed + (sizes.take (k + 1)).sum),
            RunEvent.submitTask (k0 + k)].Sublist
        (parallelBatchNodeRunEvents true totObs k0 completed total sizes) := by
  intro sizes
  induction sizes with
  | nil =>
      intro k k0 completed total hk
      exact absurd hk (by simp)
  | cons sz rest ih =>
      intro k k0 completed total hk
      cases k with
      | zero =>
          refine ⟨if total = 0 ∨ total < totObs k0 then totObs k0 else total, ?_⟩
          simp only [parallelBatchNodeRunEvents, List.take_succ_cons,
            List.take_zero, List.sum_cons, List.sum_nil, Nat.add_zero, if_true,
            List.cons_append, List.nil_append]
          refine List.Sublist.cons _ ?_
          refine List.Sublist.cons _ ?_
          refine List.Sublist.cons₂ _ ?_
          refine List.Sublist.cons₂ _ ?_
          refine List.Sublist.cons₂ _ ?_
          refine List.Sublist.cons₂ _ ?_
          exact List.nil_sublist _
      | succ k =>
          have hk2 : k < rest.length := by
            simpa using Nat.lt_of_succ_lt_succ hk
          obtain ⟨t, hsub⟩ := ih k (k0 + 1) (completed + sz)
            (if total = 0 ∨ total < totObs k0 then totObs k0 else total) hk2
          refine ⟨t, ?_⟩
          have e1 : completed + ((sz :: rest).take (k + 1 + 1)).sum =
              completed + sz + (rest.take (k + 1)).sum := by
            simp [List.take_succ_cons, Nat.add_assoc]
          have e2 : k0 + (k + 1) = k0 + 1 + k := by omega
          rw [e1, e2]
          show List.Sublist _ (parallelBatchNodeRunEvents true totObs k0 completed
            total (sz :: rest))
          simp only [parallelBatchNodeRunEvents]
          exact hsub.trans (List.sublist_append_right _ _)

/-- C1: in both run loops, for every batch k yielded by the reader the node
stores reader.completed_count (the offset already advanced past batch k) as
its current progress, reports it, and saves a checkpoint carrying it,
strictly before process_batch is invoked on that batch (sequential loop)
resp. before the batch task is submitted to the executor, which strictly
precedes the in-task process_batch call (parallel loop).  Stated as: those
four events occur in this order as a sublist of the run trace.  The node
context must be set (the pipeline always sets one before running). -/
theorem c1_commit_before_operator (totObs : Nat → Nat) (wrote : Nat → Bool)
    (start total0 : Nat) (sizes : List Nat) (k : Nat) (hk : k < sizes.length) :
    (∃ t, [RunEvent.setCurrentProgress (start + (sizes.take (k + 1)).sum),
           RunEvent.reportProgress (start + (sizes.take (k + 1)).sum) t,
           RunEvent.saveCheckpoint (start + (sizes.take (k + 1)).sum),
           RunEvent.invokeProcessBatch k].Sublist
        (batchNodeRunEvents true totObs wrote 0 start total0 sizes)) ∧
    (∃ t, [RunEvent.setCurrentProgress (start + (sizes.take (k + 1)).sum),
           RunEvent.reportProgress (start + (sizes.take (k + 1)).sum) t,
           RunEvent.saveCheckpoint (start + (sizes.take (k + 1)).sum),
           RunEvent.submitTask k].Sublist
        (parallelBatchNodeRunEvents true totObs 0 start total0 sizes)) := by
  constructor
  · obtain ⟨t, hsub⟩ :=
      batchNodeRunEvents_commit_sublist totObs wrote sizes k 0 start total0 hk
    rw [Nat.zero_add] at hsub
    exact ⟨t, hsub⟩
  · obtain ⟨t, hsub⟩ :=
      parallelBatchNodeRunEvents_commit_sublist totObs sizes k 0 start total0 hk
    rw [Nat.zero_add] at hsub
    exact ⟨t, hsub⟩

/-- C1, witness: one batch of two items starting from offset zero. -/
theorem c1_commit_before_operator_witness :
    (0 : Nat) < ([2] : List Nat).length ∧
    ((∃ t, [RunEvent.setCurrentProgress 2, RunEvent.reportProgress 2 t,
            RunEvent.saveCheckpoint 2, RunEvent.invokeProcessBatch 0].Sublist
        (batchNodeRunEvents true (fun _ => 5) (fun _ => true) 0 0 0 [2])) ∧
     (∃ t, [RunEvent.setCurrentProgress 2, RunEvent.reportProgress 2 t,
            RunEvent.saveCheckpoint 2, RunEvent.submitTask 0].Sublist
        (parallelBatchNodeRunEvents true (fun _ => 5) 0 0 0 [2]))) :=
  ⟨by decide,
   c1_commit_before_operator (fun _ => 5) (fun _ => true) 0 0 [2] 0 (by decide)⟩

/- ====================================================================
   Tail-follow loop lemmas
   ==================================================================== -/

theorem storageRead_seg {snap final : List α} (h : snap <+: final)
    (offset limit : Nat) :
    storageRead snap offset limit <+: final.drop offset := by
  have h1 := List.take_prefix limit (snap.drop offset)
  exact h1.trans (h.drop offset)

theorem yield_append_drop {final b : List α} {offset : Nat}
    (h : b <+: final.drop offset) :
    b ++ final.drop (offset + b.length) = final.drop offset := by
  obtain ⟨t, ht⟩ := h
  have h2 : final.drop (offset + b.length) = (final.drop offset).drop b.length := by
    rw [List.drop_drop, Nat.add_comm]
  rw [h2, ← ht, List.drop_left]

theorem storageRead_quiescent_isEmpty {final : List α} {offset bs : Nat}
    (hbs : 1 ≤ bs) (h : (storageRead final offset bs).isEmpty = true) :
    final.drop offset = [] := by
  rw [List.isEmpty_iff] at h
  rw [storageRead] at h
  rcases List.take_eq_nil_iff.1 h with h1 | h1
  · omega
  · exact h1

theorem bridgeRun_step_retry {obs : Nat → StreamObs α} {bs fuel t offset retries : Nat}
    (h1 : (storageRead (obs t).snap offset bs).isEmpty = true)
    (h2 : (obs t).done = true) (h3 : offset = 0) (h4 : retries < 5) :
    bridgeRun obs bs (fuel + 1) t offset retries =
      bridgeRun obs bs fuel (t + 1) offset (retries + 1) := by
  simp only [bridgeRun]
  rw [if_pos h1, if_pos h2, if_pos ⟨h3, h4⟩]

theorem bridgeRun_step_drain {obs : Nat → StreamObs α} {bs fuel t offset retries : Nat}
    (h1 : (storageRead (obs t).snap offset bs).isEmpty = true)
    (h2 : (obs t).done = true) (h3 : ¬ (offset = 0 ∧ retries < 5)) :
    bridgeRun obs bs (fuel + 1) t offset retries =
      bridgeDrain obs bs fuel (t + 1) offset := by
  simp only [bridgeRun]
  rw [if_pos h1, if_pos h2, if_neg h3]

theorem bridgeRun_step_wait {obs : Nat → StreamObs α} {bs fuel t offset retries : Nat}
    (h1 : (storageRead (obs t).snap offset bs).isEmpty = true)
    (h2 : (obs t).done = false) (h3 : (obs t).waitOk = true) :
    bridgeRun obs bs (fuel + 1) t offset retries =
      bridgeRun obs bs fuel (t + 1) offset retries := by
  simp only [bridgeRun]
  rw [if_pos h1, if_neg (by rw [h2]; exact Bool.false_ne_true), if_pos h3]

theorem bridgeRun_step_anneal_empty {obs : Nat → StreamObs α}
    {bs fuel t offset retries : Nat}
    (h1 : (storageRead (obs t).snap offset bs).isEmpty = true)
    (h2 : (obs t).done = false) (h3 : (obs t).waitOk = false)
    (h4 : (storageRead (obs (t + 1)).snap offset bs).isEmpty = true) :
    bridgeRun obs bs (fuel + 1) t offset retries =
      bridgeRun obs bs fuel (t + 2) offset retries := by
  simp only [bridgeRun]
  rw [if_pos h1, if_neg (by rw [h2]; exact Bool.false_ne_true),
    if_neg (by rw [h3]; exact Bool.false_ne_true), if_pos h4]

theorem bridgeRun_step_anneal_yield {obs : Nat → StreamObs α}
    {bs fuel t offset retries : Nat}
    (h1 : (storageRead (obs t).snap offset bs).isEmpty = true)
    (h2 : (obs t).done = false) (h3 : (obs t).waitOk = false)
    (h4 : (storageRead (obs (t + 1)).snap offset bs).isEmpty = false) :
    bridgeRun obs bs (fuel + 1) t offset retries =
      ((storageRead (obs (t + 1)).snap offset bs) ::
        (bridgeRun obs bs fuel (t + 2)
          (offset + (storageRead (obs (t + 1)).snap offset bs).length) retries).1,
       (bridgeRun obs bs fuel (t + 2)
          (offset + (storageRead (obs (t + 1)).snap offset bs).length) retries).2) := by
  simp only [bridgeRun]
  rw [if_pos h1, if_neg (by rw [h2]; exact Bool.false_ne_true),
    if_neg (by rw [h3]; exact Bool.false_ne_true),
    if_neg (by rw [h4]; exact Bool.false_ne_true)]

theorem bridgeRun_step_full {obs : Nat → StreamObs α} {bs fuel t offset retries : Nat}
    (h1 : (storageRead (obs t).snap offset bs).isEmpty = false)
    (h2 : bs ≤ (storageRead (obs t).snap offset bs).length) :
    bridgeRun obs bs (fuel + 1) t offset retries =
      ((storageRead (obs t).snap offset bs) ::
        (bridgeRun obs bs fuel (t + 1)
          (offset + (storageRead (obs t).snap offset bs).length) 0).1,
       (bridgeRun obs bs fuel (t + 1)
          (offset + (storageRead (obs t).snap offset bs).length) 0).2) := by
  simp only [bridgeRun]
  rw [if_neg (by rw [h1]; exact Bool.false_ne_true), if_pos h2]

theorem bridgeRun_step_tail_drain {obs : Nat → StreamObs α}
    {bs fuel t offset retries : Nat}
    (h1 : (storageRead (obs t).snap offset bs).isEmpty = false)
    (h2 : ¬ bs ≤ (storageRead (obs t).snap offset bs).length)
    (h3 : (obs t).done = true) :
    bridgeRun obs bs (fuel + 1) t offset retries =
      ((storageRead (obs t).snap offset bs) ::
        (bridgeDrain obs bs fuel (t + 1)
          (offset + (storageRead (obs t).snap offset bs).length)).1,
       (bridgeDrain obs bs fuel (t + 1)
          (offset + (storageRead (obs t).snap offset bs).length)).2) := by
  have hlen : 0 < (storageRead (obs t).snap offset bs).length := by
    cases hb : storageRead (obs t).snap offset bs with
    | nil => rw [hb] at h1; exact absurd h1 (by simp)
    | cons x xs => simp [hb]
  simp only [bridgeRun]
  rw [if_neg (by rw [h1]; exact Bool.false_ne_true), if_neg h2, if_pos h3,
    if_neg (by
      intro hc
      omega)]

theorem bridgeRun_step_tail_wait {obs : Nat → StreamObs α}
    {bs fuel t offset retries : Nat}
    (h1 : (storageRead (obs t).snap offset bs).isEmpty = false)
    (h2 : ¬ bs ≤ (storageRead (obs t).snap offset bs).length)
    (h3 : (obs t).done = false) (h4 : (obs t).waitOk = true) :
    bridgeRun obs bs (fuel + 1) t offset retries =
      ((storageRead (obs t).snap offset bs) ::
        (bridgeRun obs bs fuel (t + 1)
          (offset + (storageRead (obs t).snap offset bs).length) 0).1,
       (bridgeRun obs bs fuel (t + 1)
          (offset + (storageRead (obs t).snap offset bs).length) 0).2) := by
  simp only [bridgeRun]
  rw [if_neg (by rw [h1]; exact Bool.false_ne_true), if_neg h2,
    if_neg (by rw [h3]; exact Bool.false_ne_true), if_pos h4]

theorem bridgeRun_step_tail_anneal_empty {obs : Nat → StreamObs α}
    {bs fuel t offset retries : Nat}
    (h1 : (storageRead (obs t).snap offset bs).isEmpty = false)
    (h2 : ¬ bs ≤ (storageRead (obs t).snap offset bs).length)
    (h3 : (obs t).done = false) (h4 : (obs t).waitOk = false)
    (h5 : (storageRead (obs (t + 1)).snap
      (offset + (storageRead (obs t).snap offset bs).length) bs).isEmpty = true) :
    bridgeRun obs bs (fuel + 1) t offset retries =
      ((storageRead (obs t).snap offset bs) ::
        (bridgeRun obs bs fuel (t + 2)
          (offset + (storageRead (obs t).snap offset bs).length) 0).1,
       (bridgeRun obs bs fuel (t + 2)
          (offset + (storageRead (obs t).snap offset bs).length) 0).2) := by
  simp only [bridgeRun]
  rw [if_neg (by rw [h1]; exact Bool.false_ne_true), if_neg h2,
    if_neg (by rw [h3]; exact Bool.false_ne_true),
    if_neg (by rw [h4]; exact Bool.false_ne_true), if_pos h5]

theorem bridgeRun_step_tail_anneal_yield {obs : Nat → StreamObs α}
    {bs fuel t offset retries : Nat}
    (h1 : (storageRead (obs t).snap offset bs).isEmpty = false)
    (h2 : ¬ bs ≤ (storageRead (obs t).snap offset bs).length)
    (h3 : (obs t).done = false) (h4 : (obs t).waitOk = false)
    (h5 : (storageRead (obs (t + 1)).snap
      (offset + (storageRead (obs t).snap offset bs).length) bs).isEmpty = false) :
    bridgeRun obs bs (fuel + 1) t offset retries =
      ((storageRead (obs t).snap offset bs) ::
        (storageRead (obs (t + 1)).snap
          (offset + (storageRead (obs t).snap offset bs).length) bs) ::
        (bridgeRun obs bs fuel (t + 2)
          (offset + (storageRead (obs t).snap offset bs).length +
            (storageRead (obs (t + 1)).snap
              (offset + (storageRead (obs t).snap offset bs).length) bs).length) 0).1,
       (bridgeRun obs bs fuel (t + 2)
          (offset + (storageRead (obs t).snap offset bs).length +
            (storageRead (obs (t + 1)).snap
              (offset + (storageRead (obs t).snap offset bs).length) bs).length) 0).2) := by
  simp only [bridgeRun]
  rw [if_neg (by rw [h1]; exact Bool.false_ne_true), if_neg h2,
    if_neg (by rw [h3]; exact Bool.false_ne_true),
    if_neg (by rw [h4]; exact Bool.false_ne_true),
    if_neg (by rw [h5]; exact Bool.false_ne_true)]

theorem length_pos_of_isEmpty_false {l : List α} (h : l.isEmpty = false) :
    0 < l.length := by
  cases l with
  | nil => exact absurd h (by simp)
  | cons x xs => simp

theorem bridgeDrain_step_empty {obs : Nat → StreamObs α} {bs fuel t offset : Nat}
    (h : (storageRead (obs t).snap offset bs).isEmpty = true) :
    bridgeDrain obs bs (fuel + 1) t offset = ([], some offset) := by
  simp only [bridgeDrain]
  rw [if_pos h]

theorem bridgeDrain_step_yield {obs : Nat → StreamObs α} {bs fuel t offset : Nat}
    (h : (storageRead (obs t).snap offset bs).isEmpty = false) :
    bridgeDrain obs bs (fuel + 1) t offset =
      ((storageRead (obs t).snap offset bs) ::
        (bridgeDrain obs bs fuel (t + 1)
          (offset + (storageRead (obs t).snap offset bs).length)).1,
       (bridgeDrain obs bs fuel (t + 1)
          (offset + (storageRead (obs t).snap offset bs).length)).2) := by
  simp only [bridgeDrain]
  rw [if_neg (by rw [h]; exact Bool.false_ne_true)]

theorem bridgeDrain_quiescent (obs : Nat → StreamObs α) {bs : Nat}
    {final : List α} (hbs : 1 ≤ bs) :
    ∀ (fuel t offset : Nat), (∀ u, t ≤ u → (obs u).snap = final) →
      final.length - offset + 1 ≤ fuel →
      (∃ e, (bridgeDrain obs bs fuel t offset).2 = some e) ∧
      (bridgeDrain obs bs fuel t offset).1.flatten = final.drop offset := by
  intro fuel
  induction fuel with
  | zero =>
      intro t offset hq hfuel
      omega
  | succ fuel ih =>
      intro t offset hq hfuel
      have hsnap := hq t (Nat.le_refl t)
      cases hb : (storageRead (obs t).snap offset bs).isEmpty with
      | true =>
          rw [bridgeDrain_step_empty hb]
          rw [hsnap] at hb
          have hdrop := storageRead_quiescent_isEmpty hbs hb
          exact ⟨⟨offset, rfl⟩, by simp [hdrop]⟩
      | false =>
          rw [bridgeDrain_step_yield hb]
          rw [hsnap] at hb ⊢
          have hlen := length_pos_of_isEmpty_false hb
          obtain ⟨⟨e, he⟩, hjoin⟩ := ih (t + 1)
            (offset + (storageRead final offset bs).length)
            (fun u hu => hq u (by omega))
            (by
              have hrefl := List.prefix_refl final
              have hl2 : (storageRead final offset bs).length ≤
                  final.length - offset := by
                have h3 := (storageRead_seg hrefl offset bs).length_le
                simp only [List.length_drop] at h3
                exact h3
              omega)
          have hrefl := List.prefix_refl final
          refine ⟨⟨e, he⟩, ?_⟩
          show (storageRead final offset bs) ++ _ = _
          rw [hjoin]
          exact yield_append_drop (storageRead_seg hrefl offset bs)

theorem bridgeRun_quiescent_nil {obs : Nat → StreamObs α} {bs : Nat} :
    ∀ (fuel t offset retries : Nat),
      (∀ u, t ≤ u → (obs u).snap = ([] : List α) ∧ (obs u).done = true) →
      5 - retries + 2 ≤ fuel →
      bridgeRun obs bs fuel t offset retries = ([], some offset) := by
  intro fuel
  induction fuel with
  | zero =>
      intro t offset retries hq hfuel
      omega
  | succ fuel ih =>
      intro t offset retries hq hfuel
      obtain ⟨hsnap, hdone⟩ := hq t (Nat.le_refl t)
      have hb : (storageRead (obs t).snap offset bs).isEmpty = true := by
        rw [hsnap]
        simp [storageRead]
      by_cases hret : offset = 0 ∧ retries < 5
      · rw [bridgeRun_step_retry hb hdone hret.1 hret.2]
        exact ih (t + 1) offset (retries + 1) (fun u hu => hq u (by omega))
          (by omega)
      · rw [bridgeRun_step_drain hb hdone hret]
        cases fuel with
        | zero => omega
        | succ fuel2 =>
            have hb2 : (storageRead (obs (t + 1)).snap offset bs).isEmpty = true := by
              rw [(hq (t + 1) (by omega)).1]
              simp [storageRead]
            rw [bridgeDrain_step_empty hb2]

theorem bridgeRun_quiescent_pos {obs : Nat → StreamObs α} {bs : Nat}
    {final : List α} (hbs : 1 ≤ bs) (hL : final ≠ []) :
    ∀ (fuel t offset retries : Nat),
      (∀ u, t ≤ u → (obs u).snap = final ∧ (obs u).done = true) →
      final.length - offset + 2 ≤ fuel →
      (∃ e, (bridgeRun obs bs fuel t offset retries).2 = some e) ∧
      (bridgeRun obs bs fuel t offset retries).1.flatten = final.drop offset := by
  intro fuel
  induction fuel with
  | zero =>
      intro t offset retries hq hfuel
      omega
  | succ fuel ih =>
      intro t offset retries hq hfuel
      obtain ⟨hsnap, hdone⟩ := hq t (Nat.le_refl t)
      cases hb : (storageRead (obs t).snap offset bs).isEmpty with
      | true =>
          rw [hsnap] at hb
          have hdrop := storageRead_quiescent_isEmpty hbs hb
          have hoff : offset ≠ 0 := by
            intro h0
            subst h0
            rw [List.drop_zero] at hdrop
            exact hL hdrop
          rw [bridgeRun_step_drain (by rw [hsnap]; exact hb) hdone
            (fun hc => hoff hc.1)]
          refine (bridgeDrain_quiescent obs hbs fuel (t + 1) offset
            (fun u hu => (hq u (by omega)).1) (by omega))
      | false =>
          have hlen := length_pos_of_isEmpty_false hb
          by_cases hfull : bs ≤ (storageRead (obs t).snap offset bs).length
          · rw [bridgeRun_step_full hb hfull]
            rw [hsnap] at hlen ⊢
            have hrefl := List.prefix_refl final
            have hl2 : (storageRead final offset bs).length ≤
                final.length - offset := by
              have h3 := (storageRead_seg hrefl offset bs).length_le
              simp only [List.length_drop] at h3
              exact h3
            obtain ⟨⟨e, he⟩, hjoin⟩ := ih (t + 1)
              (offset + (storageRead final offset bs).length) 0
              (fun u hu => hq u (by omega)) (by omega)
            refine ⟨⟨e, he⟩, ?_⟩
            show (storageRead final offset bs) ++ _ = _
            rw [hjoin]
            exact yield_append_drop (storageRead_seg hrefl offset bs)
          · rw [bridgeRun_step_tail_drain hb hfull hdone]
            rw [hsnap] at hb hfull hlen ⊢
            -- the under-full read took everything up to the final size
            have hread : storageRead final offset bs = final.drop offset := by
              rw [storageRead]
              refine List.take_of_length_le ?_
              rw [storageRead, List.length_take] at hfull
              omega
            have hoffle : offset < final.length := by
              by_contra hcon
              have : final.drop offset = [] := by
                apply List.drop_eq_nil_of_le
                omega
              rw [hread, this] at hb
              exact absurd hb (by simp)
            obtain ⟨⟨e, he⟩, hjoin⟩ := bridgeDrain_quiescent obs hbs fuel
              (t + 1) (offset + (storageRead final offset bs).length)
              (fun u hu => (hq u (by omega)).1)
              (by
                rw [hread, List.length_drop]
                omega)
            have hrefl := List.prefix_refl final
            refine ⟨⟨e, he⟩, ?_⟩
            show (storageRead final offset bs) ++ _ = _
            rw [hjoin]
            exact yield_append_drop (storageRead_seg hrefl offset bs)

theorem done_quiescent {obs : Nat → StreamObs α} {final : List α}
    (hdone : ∀ t, (obs t).done = true → (obs t).snap = final)
    (hsticky : ∀ t, (obs t).done = true → (obs (t + 1)).done = true)
    {t : Nat} (h : (obs t).done = true) :
    ∀ u, t ≤ u → (obs u).snap = final ∧ (obs u).done = true := by
  have hstep : ∀ d, (obs (t + d)).done = true := by
    intro d
    induction d with
    | zero => exact h
    | succ d ihd => exact hsticky (t + d) ihd
  intro u hu
  obtain ⟨d, rfl⟩ := Nat.exists_eq_add_of_le hu
  exact ⟨hdone _ (hstep d), hstep d⟩

theorem bridgeRun_complete {obs : Nat → StreamObs α} {bs : Nat} {final : List α}
    (T : Nat) (hbs : 1 ≤ bs)
    (hpre : ∀ t, (obs t).snap <+: final)
    (hdone : ∀ t, (obs t).done = true → (obs t).snap = final)
    (hsticky : ∀ t, (obs t).done = true → (obs (t + 1)).done = true)
    (hT : (obs T).done = true) :
    ∀ (fuel t offset retries : Nat),
      (T - t) + final.length + 9 ≤ fuel →
      (∃ e, (bridgeRun obs bs fuel t offset retries).2 = some e) ∧
      (bridgeRun obs bs fuel t offset retries).1.flatten = final.drop offset := by
  intro fuel
  induction fuel with
  | zero =>
      intro t offset retries hfuel
      omega
  | succ fuel ih =>
      intro t offset retries hfuel
      by_cases hd : (obs t).done = true
      · have hq := done_quiescent hdone hsticky hd
        rcases eq_or_ne final [] with hnil | hnil
        · subst hnil
          rw [bridgeRun_quiescent_nil (fuel + 1) t offset retries hq (by omega)]
          exact ⟨⟨offset, rfl⟩, by simp⟩
        · exact bridgeRun_quiescent_pos hbs hnil (fuel + 1) t offset retries hq
            (by omega)
      · rw [Bool.not_eq_true] at hd
        have htT : t < T := by
          by_contra hc
          have h2 := (done_quiescent hdone hsticky hT t (by omega)).2
          rw [hd] at h2
          exact absurd h2 (by simp)
        cases hb : (storageRead (obs t).snap offset bs).isEmpty with
        | true =>
            cases hw : (obs t).waitOk with
            | true =>
                rw [bridgeRun_step_wait hb hd hw]
                exact ih (t + 1) offset retries (by omega)
            | false =>
                cases hfb : (storageRead (obs (t + 1)).snap offset bs).isEmpty with
                | true =>
                    rw [bridgeRun_step_anneal_empty hb hd hw hfb]
                    exact ih (t + 2) offset retries (by omega)
                | false =>
                    rw [bridgeRun_step_anneal_yield hb hd hw hfb]
                    obtain ⟨⟨e, he⟩, hjoin⟩ := ih (t + 2)
                      (offset + (storageRead (obs (t + 1)).snap offset bs).length)
                      retries (by omega)
                    refine ⟨⟨e, he⟩, ?_⟩
                    show (storageRead (obs (t + 1)).snap offset bs) ++ _ = _
                    rw [hjoin]
                    exact yield_append_drop
                      (storageRead_seg (hpre (t + 1)) offset bs)
        | false =>
            by_cases hfull : bs ≤ (storageRead (obs t).snap offset bs).length
            · rw [bridgeRun_step_full hb hfull]
              obtain ⟨⟨e, he⟩, hjoin⟩ := ih (t + 1)
                (offset + (storageRead (obs t).snap offset bs).length) 0
                (by omega)
              refine ⟨⟨e, he⟩, ?_⟩
              show (storageRead (obs t).snap offset bs) ++ _ = _
              rw [hjoin]
              exact yield_append_drop (storageRead_seg (hpre t) offset bs)
            · cases hw : (obs t).waitOk with
              | true =>
                  rw [bridgeRun_step_tail_wait hb hfull hd hw]
                  obtain ⟨⟨e, he⟩, hjoin⟩ := ih (t + 1)
                    (offset + (storageRead (obs t).snap offset bs).length) 0
                    (by omega)
                  refine ⟨⟨e, he⟩, ?_⟩
                  show (storageRead (obs t).snap offset bs) ++ _ = _
                  rw [hjoin]
                  exact yield_append_drop (storageRead_seg (hpre t) offset bs)
              | false =>
                  cases hfb : (storageRead (obs (t + 1)).snap
                    (offset + (storageRead (obs t).snap offset bs).length)
                    bs).isEmpty with
                  | true =>
                      rw [bridgeRun_step_tail_anneal_empty hb hfull hd hw hfb]
                      obtain ⟨⟨e, he⟩, hjoin⟩ := ih (t + 2)
                        (offset + (storageRead (obs t).snap offset bs).length) 0
                        (by omega)
                      refine ⟨⟨e, he⟩, ?_⟩
                      show (storageRead (obs t).snap offset bs) ++ _ = _
                      rw [hjoin]
                      exact yield_append_drop
                        (storageRead_seg (hpre t) offset bs)
                  | false =>
                      rw [bridgeRun_step_tail_anneal_yield hb hfull hd hw hfb]
                      obtain ⟨⟨e, he⟩, hjoin⟩ := ih (t + 2)
                        (offset + (storageRead (obs t).snap offset bs).length +
                          (storageRead (obs (t + 1)).snap
                            (offset + (storageRead (obs t).snap offset bs).length)
                            bs).length) 0 (by omega)
                      refine ⟨⟨e, he⟩, ?_⟩
                      show (storageRead (obs t).snap offset bs) ++
                        ((storageRead (obs (t + 1)).snap
                          (offset + (storageRead (obs t).snap offset bs).length)
                          bs) ++ _) = _
                      rw [hjoin]
                      rw [yield_append_drop (storageRead_seg (hpre (t + 1))
                        (offset + (storageRead (obs t).snap offset bs).length) bs)]
                      exact yield_append_drop
                        (storageRead_seg (hpre t) offset bs)

theorem readerRead_final_completed (anchorKey : α → Option ι) :
    ∀ (batches : List (List α)) (completed : Nat),
      (readerRead anchorKey completed batches).2 =
        completed + batches.flatten.length := by
  intro batches
  induction batches with
  | nil =>
      intro c
      simp [readerRead]
  | cons b rest ih =>
      intro c
      simp only [readerRead]
      cases hbe : b.isEmpty with
      | true =>
          rw [if_pos rfl, ih c]
          rw [List.isEmpty_iff] at hbe
          simp [hbe]
      | false =>
          rw [if_neg Bool.false_ne_true]
          show (readerRead anchorKey (c + b.length) rest).2 = _
          rw [ih (c + b.length)]
          simp [Nat.add_assoc]

theorem readerRead_data_flatten (anchorKey : α → Option ι) :
    ∀ (batches : List (List α)) (completed : Nat),
      ((readerRead anchorKey completed batches).1.map Prod.fst).flatten =
        batches.flatten := by
  intro batches
  induction batches with
  | nil =>
      intro c
      simp [readerRead]
  | cons b rest ih =>
      intro c
      simp only [readerRead]
      cases hbe : b.isEmpty with
      | true =>
          rw [if_pos rfl, ih c]
          rw [List.isEmpty_iff] at hbe
          simp [hbe]
      | false =>
          rw [if_neg Bool.false_ne_true]
          show b ++ ((readerRead anchorKey (c + b.length) rest).1.map
            Prod.fst).flatten = _
          rw [ih (c + b.length)]
          rfl

/-- C2: over any environment trace in which every storage snapshot is a
prefix of the final contents, the done flag (channel EOF or storage seal)
is sticky and implies the snapshot is final (the writer flushes before
sealing), and the stream is eventually sealed at some interaction T, the
tail-follow loop started at offset s terminates, and the concatenation of
its yielded batches is exactly the final contents from offset s on: every
storage offset in s to final size is yielded exactly once, in order, the
loop offset advancing by each batch length.  GenericReader.read passes
every batch through unchanged and ends with completed_count equal to
s plus the number of yielded items. -/
theorem c2_reader_yields_offsets_once (obs : Nat → StreamObs α)
    (anchorKey : α → Option ι) (bs T fuel s : Nat) (final : List α)
    (hbs : 1 ≤ bs)
    (hpre : ∀ t, (obs t).snap <+: final)
    (hdone : ∀ t, (obs t).done = true → (obs t).snap = final)
    (hsticky : ∀ t, (obs t).done = true → (obs (t + 1)).done = true)
    (hT : (obs T).done = true)
    (hfuel : T + final.length + 9 ≤ fuel) :
    (∃ e, (bridgeRun obs bs fuel 0 s 0).2 = some e) ∧
    (bridgeRun obs bs fuel 0 s 0).1.flatten = final.drop s ∧
    ((readerRead anchorKey s (bridgeRun obs bs fuel 0 s 0).1).1.map
        Prod.fst).flatten = final.drop s ∧
    (readerRead anchorKey s (bridgeRun obs bs fuel 0 s 0).1).2 =
      s + (final.drop s).length := by
  obtain ⟨hh, hj⟩ := bridgeRun_complete T hbs hpre hdone hsticky hT fuel 0 s 0
    (by omega)
  refine ⟨hh, hj, ?_, ?_⟩
  · rw [readerRead_data_flatten, hj]
  · rw [readerRead_final_completed, hj]

/-- C2, witness: a sealed three-record storage read from offset 1 in
batches of two. -/
theorem c2_reader_yields_offsets_once_witness :
    (∃ e, (bridgeRun (fun _ => ⟨[10, 20, 30], true, false, false⟩ :
        Nat → StreamObs Nat) 2 13 0 1 0).2 = some e) ∧
    (bridgeRun (fun _ => ⟨[10, 20, 30], true, false, false⟩ :
        Nat → StreamObs Nat) 2 13 0 1 0).1.flatten = [20, 30] ∧
    ((readerRead (fun _ => (none : Option Nat)) 1
        (bridgeRun (fun _ => ⟨[10, 20, 30], true, false, false⟩ :
          Nat → StreamObs Nat) 2 13 0 1 0).1).1.map Prod.fst).flatten =
      [20, 30] ∧
    (readerRead (fun _ => (none : Option Nat)) 1
        (bridgeRun (fun _ => ⟨[10, 20, 30], true, false, false⟩ :
          Nat → StreamObs Nat) 2 13 0 1 0).1).2 = 3 :=
  c2_reader_yields_offsets_once
    (fun _ => ⟨[10, 20, 30], true, false, false⟩) (fun _ => none) 2 0 13 1
    [10, 20, 30] (by decide) (fun _ => List.prefix_refl _) (fun _ _ => rfl)
    (fun _ _ => rfl) rfl (by decide)

/-- C10: GenericReader.close sets the sticky EOF flag on the shared
channel, so is_eof subsequently returns true for every user of that
channel; a tail-follower sharing the channel then sees done on every
observation, and — with the storage contents stationary at stored, the
writer having been cut off by the sticky EOF rather than by its own seal —
terminates after draining exactly the records present from its offset
on. -/
theorem c10_reader_close_eof (ch : ChannelState) (obs : Nat → StreamObs α)
    (bs fuel offset : Nat) (stored : List α)
    (hbs : 1 ≤ bs)
    (heof : ∀ t, (obs t).eofFlag = true)
    (hsnap : ∀ t, (obs t).snap = stored)
    (hfuel : stored.length + 9 ≤ fuel) :
    (genericReaderClose ch).is_eof = true ∧
    (∃ e, (bridgeRun obs bs fuel 0 offset 0).2 = some e) ∧
    (bridgeRun obs bs fuel 0 offset 0).1.flatten = stored.drop offset := by
  have hdoneAll : ∀ t, (obs t).done = true := by
    intro t
    simp [StreamObs.done, heof t]
  obtain ⟨hh, hj⟩ := bridgeRun_complete 0 hbs
    (fun t => by rw [hsnap t])
    (fun t _ => hsnap t)
    (fun t _ => hdoneAll (t + 1))
    (hdoneAll 0) fuel 0 offset 0 (by omega)
  exact ⟨rfl, hh, hj⟩

/-- C10, witness: closing a fresh channel and a follower over a two-record
stationary storage. -/
theorem c10_reader_close_eof_witness :
    (genericReaderClose ⟨false, 3⟩).is_eof = true ∧
    (∃ e, (bridgeRun (fun _ => ⟨[1, 2], true, false, false⟩ :
        Nat → StreamObs Nat) 1 11 0 0 0).2 = some e) ∧
    (bridgeRun (fun _ => ⟨[1, 2], true, false, false⟩ :
        Nat → StreamObs Nat) 1 11 0 0 0).1.flatten = [1, 2] :=
  c10_reader_close_eof ⟨false, 3⟩ (fun _ => ⟨[1, 2], true, false, false⟩)
    1 11 0 [1, 2] (by decide) (fun _ => rfl) (fun _ => rfl) (by decide)

end LlmDatagen
